import Mathlib

/-!
Verification of src/find-initials.py: a scanner that searches component files
for occurrences of the regular expression initial=\{\{[^\}]+\}\} and prints a
report of file name, 1-based line number and an 80-character snippet for each
match.  Texts are embedded as lists of characters; the directory listing is
embedded as the list of (file name, file text) pairs in enumeration order.
-/

namespace FindInitials

/-- The left-brace character. -/
def lb : Char := '\x7b'

/-- The right-brace character. -/
def rb : Char := '\x7d'

/-- The literal opener of the pattern: initial= followed by two left braces
(10 characters). -/
def patOpen : List Char := "initial=".data ++ [lb, lb]

/-- One attempted match of the regular expression initial=\{\{[^\}]+\}\} at the
head of s (the pattern of src/find-initials.py line 13): the literal opener,
then a maximal nonempty run of characters other than the right brace, then two
right braces.  The run is maximal because the quantified class excludes the
right brace, so no backtracking is possible.  Returns the matched text and the
remainder of the input after the match. -/
def matchAt (s : List Char) : Option (List Char × List Char) :=
  if s.take 10 = patOpen then
    match (s.drop 10).dropWhile (fun c => c != rb) with
    | c1 :: c2 :: rest =>
      if (s.drop 10).takeWhile (fun c => c != rb) ≠ [] ∧ c1 = rb ∧ c2 = rb then
        some (patOpen ++ (s.drop 10).takeWhile (fun c => c != rb) ++ [rb, rb], rest)
      else none
    | _ => none
  else none

/-- The re.finditer scan, with explicit fuel (one unit per scan step; each step
consumes at least one character, so fuel equal to the text length suffices).
At each offset the regex is tried; on success the pair (absolute start offset,
matched text) is recorded and scanning resumes after the match (matches do not
overlap); on failure scanning advances one character. -/
def scanAux : Nat → List Char → Nat → List (Nat × List Char)
  | 0, _, _ => []
  | _ + 1, [], _ => []
  | fuel + 1, c :: cs, pos =>
    match matchAt (c :: cs) with
    | some (m, rest) => (pos, m) :: scanAux fuel rest (pos + m.length)
    | none => scanAux fuel cs (pos + 1)

/-- All matches of the pattern in s (re.finditer at src/find-initials.py
line 13), as pairs of absolute start offset and matched text, with pos the
absolute offset of the head of s. -/
def finditer (s : List Char) (pos : Nat) : List (Nat × List Char) :=
  scanAux s.length s pos

/-- The 1-based line number of offset p in content: the number of newline
characters strictly before p, plus one (src/find-initials.py line 15). -/
def lineNum (content : List Char) (p : Nat) : Nat :=
  ((content.take p).count '\n') + 1

/-- The reported snippet of a match: its first 80 characters
(src/find-initials.py line 16). -/
def snippet (m : List Char) : List Char :=
  m.take 80

/-- The result lines contributed by one file: one formatted string per match,
name, colon, line number, colon, space, snippet (src/find-initials.py
line 17). -/
def fileResults (name : String) (content : List Char) : List String :=
  (finditer content 0).map (fun pm =>
    name ++ ":" ++ toString (lineNum content pm.1) ++ ": " ++ String.mk (snippet pm.2))

/-- The accumulated result list over the directory listing, files in
enumeration order (src/find-initials.py lines 7-17). -/
def scanResults (files : List (String × String)) : List String :=
  (files.map (fun fc => fileResults fc.1 fc.2.data)).flatten

/-- The header printed for a non-empty result list.  The source writes the
f-string "Found {len(results)} remaining initial={{}} patterns:\n"; inside an
f-string a doubled brace renders as a single brace, so the printed text reads
initial= followed by one left and one right brace (src/find-initials.py
line 20). -/
def foundHeader (n : Nat) : String :=
  "Found " ++ toString n ++ " remaining initial=\x7b\x7d patterns:"

/-- The message printed when no match was found.  This one is a plain string,
not an f-string, so its doubled braces are printed literally
(src/find-initials.py line 24). -/
def emptyMsg : String :=
  "No remaining initial=\x7b\x7b\x7d\x7d patterns found!"

/-- The printed report, as the list of output lines (src/find-initials.py
lines 19-24).  print of the header f-string ending in a newline emits the
header line followed by a blank line. -/
def report (files : List (String × String)) : List String :=
  let results := scanResults files
  if results ≠ [] then
    foundHeader results.length :: "" :: results
  else
    [emptyMsg]

/-- Reading the directory's files in order, where each file's read either
yields its text or raises an error; the first error propagates (the source has
no handler, src/find-initials.py lines 9-11). -/
def readFiles : List (String × Except String String) → Except String (List (String × String))
  | [] => Except.ok []
  | (_, Except.error e) :: _ => Except.error e
  | (n, Except.ok c) :: rest =>
    match readFiles rest with
    | Except.ok l => Except.ok ((n, c) :: l)
    | Except.error e => Except.error e

/-- The whole program over a directory whose file reads may fail: an uncaught
read error aborts the run before anything is printed (Except.error models the
abnormal termination with a non-zero exit status); otherwise the report is
printed. -/
def runProgram (files : List (String × Except String String)) : Except String (List String) :=
  match readFiles files with
  | Except.ok l => Except.ok (report l)
  | Except.error e => Except.error e

/-- The index of the first occurrence of two consecutive right braces in l,
used to state the specification's reading of the pattern. -/
def firstDoubleBrace : List Char → Option Nat
  | [] => none
  | [_] => none
  | a :: b :: rest =>
    if a = rb ∧ b = rb then some 0
    else (firstDoubleBrace (b :: rest)).map (· + 1)

/-- Following the specification's words for the pattern: the shortest span
starting with the opener initial= and two left braces, containing any
characters (including newlines), and ending at the nearest following pair of
right braces.  Returns that span when the text begins with one. -/
def specMatchAt (s : List Char) : Option (List Char) :=
  if s.take 10 = patOpen then
    match firstDoubleBrace (s.drop 10) with
    | some j => some (patOpen ++ (s.drop 10).take j ++ [rb, rb])
    | none => none
  else none

lemma patOpen_length : patOpen.length = 10 := by decide

/-- Shape of a successful regex match: the input splits as the match followed
by the remainder, and the match is the opener, a nonempty brace-free body, and
two right braces. -/
lemma matchAt_some {s m rest : List Char} (h : matchAt s = some (m, rest)) :
    s = m ++ rest ∧
    ∃ body, m = patOpen ++ body ++ [rb, rb] ∧ body ≠ [] ∧ ∀ c ∈ body, c ≠ rb := by
  unfold matchAt at h
  split at h
  case isFalse => exact absurd h (by simp)
  case isTrue hpre =>
    split at h
    case h_2 => exact absurd h (by simp)
    case h_1 c1 c2 rest' hdrop =>
      split at h
      case isFalse => exact absurd h (by simp)
      case isTrue hcond =>
        obtain ⟨hb, hc1, hc2⟩ := hcond
        subst hc1; subst hc2
        injection h with h'
        injection h' with hm hrest
        subst hrest
        have hsd : s.drop 10 =
            (s.drop 10).takeWhile (fun c => c != rb) ++ (rb :: rb :: rest') := by
          conv_lhs => rw [← List.takeWhile_append_dropWhile (fun c => c != rb) (s.drop 10)]
          rw [hdrop]
        constructor
        · conv_lhs => rw [← List.take_append_drop 10 s]
          rw [hpre, hsd, ← hm]
          simp
        · refine ⟨(s.drop 10).takeWhile (fun c => c != rb), hm.symm, hb, ?_⟩
          intro c hc
          have := List.mem_takeWhile_imp hc
          simpa using this

/-- Length facts of a successful match: the match is at least 13 characters
(opener, at least one body character, two closing braces). -/
lemma matchAt_length {s m rest : List Char} (h : matchAt s = some (m, rest)) :
    13 ≤ m.length ∧ s.length = m.length + rest.length := by
  obtain ⟨hs, body, hm, hb, -⟩ := matchAt_some h
  have h1 : 1 ≤ body.length := by
    cases body with
    | nil => exact absurd rfl hb
    | cons a l => simp
  constructor
  · rw [hm]
    simp [patOpen_length]
    omega
  · rw [hs]
    simp

/-- Soundness of the scan: every recorded pair (p, m) starts at or after the
initial offset, the text of the input at relative offset p - pos is m, and m
has the match shape. -/
lemma scanAux_mem : ∀ {fuel : Nat} {s : List Char} {pos p : Nat} {m : List Char},
    (p, m) ∈ scanAux fuel s pos →
    pos ≤ p ∧ (s.drop (p - pos)).take m.length = m ∧
    ∃ body, m = patOpen ++ body ++ [rb, rb] ∧ body ≠ [] ∧ ∀ c ∈ body, c ≠ rb := by
  intro fuel
  induction fuel with
  | zero =>
    intro s pos p m h
    simp [scanAux] at h
  | succ fuel ih =>
    intro s pos p m h
    match s with
    | [] => simp [scanAux] at h
    | c :: cs =>
      cases hm : matchAt (c :: cs) with
      | some pr =>
        obtain ⟨m0, rest⟩ := pr
        obtain ⟨hs, shape⟩ := matchAt_some hm
        rw [scanAux, hm] at h
        rcases List.mem_cons.mp h with h | h
        · injection h with hp hmm
          subst hp; subst hmm
          refine ⟨le_refl _, ?_, shape⟩
          rw [Nat.sub_self, List.drop_zero, hs]
          exact List.take_left' rfl
        · obtain ⟨hle, htake, shape'⟩ := ih h
          refine ⟨by omega, ?_, shape'⟩
          have hdr : (c :: cs).drop (p - pos) = rest.drop (p - (pos + m0.length)) := by
            rw [hs]
            rw [show p - pos = m0.length + (p - (pos + m0.length)) by omega]
            rw [← List.drop_drop, List.drop_left]
          rw [hdr]
          exact htake
      | none =>
        rw [scanAux, hm] at h
        obtain ⟨hle, htake, shape'⟩ := ih h
        refine ⟨by omega, ?_, shape'⟩
        have hsplit : p - pos = (p - (pos + 1)) + 1 := by omega
        rw [hsplit, List.drop_succ_cons]
        exact htake

/-- The scan never records an offset below the starting offset. -/
lemma scanAux_le {fuel : Nat} {s : List Char} {pos : Nat} {pm : Nat × List Char}
    (h : pm ∈ scanAux fuel s pos) : pos ≤ pm.1 := by
  obtain ⟨p, m⟩ := pm
  exact (scanAux_mem h).1

/-- Start offsets of recorded matches are strictly increasing. -/
lemma scanAux_pairwise : ∀ (fuel : Nat) (s : List Char) (pos : Nat),
    ((scanAux fuel s pos).map Prod.fst).Pairwise (· < ·) := by
  intro fuel
  induction fuel with
  | zero => intro s pos; simp [scanAux]
  | succ fuel ih =>
    intro s pos
    match s with
    | [] => simp [scanAux]
    | c :: cs =>
      cases hm : matchAt (c :: cs) with
      | some pr =>
        obtain ⟨m0, rest⟩ := pr
        have h13 := (matchAt_length hm).1
        rw [scanAux, hm]
        simp only [List.map_cons, List.pairwise_cons]
        refine ⟨?_, ih rest (pos + m0.length)⟩
        intro q hq
        obtain ⟨pm, hpm, hfst⟩ := List.mem_map.mp hq
        have := scanAux_le hpm
        omega
      | none =>
        rw [scanAux, hm]
        exact ih cs (pos + 1)

/-- Completeness of the scan: at any position not covered by a recorded match,
the regex does not match. -/
lemma scanAux_none : ∀ (fuel : Nat) (s : List Char) (pos i : Nat),
    s.length ≤ fuel → pos ≤ i →
    (∀ pm ∈ scanAux fuel s pos, ¬(pm.1 ≤ i ∧ i < pm.1 + pm.2.length)) →
    matchAt (s.drop (i - pos)) = none := by
  intro fuel
  induction fuel with
  | zero =>
    intro s pos i hf hle hcov
    have : s = [] := List.eq_nil_of_length_eq_zero (Nat.le_zero.mp hf)
    subst this
    simp [List.drop_nil]
    decide
  | succ fuel ih =>
    intro s pos i hf hle hcov
    match s with
    | [] =>
      simp [List.drop_nil]
      decide
    | c :: cs =>
      cases hm : matchAt (c :: cs) with
      | some pr =>
        obtain ⟨m0, rest⟩ := pr
        obtain ⟨hs, -⟩ := matchAt_some hm
        obtain ⟨h13, hlen⟩ := matchAt_length hm
        have hhead := hcov (pos, m0) (by rw [scanAux, hm]; exact List.mem_cons_self _ _)
        simp only [not_and, not_lt] at hhead
        have hge : pos + m0.length ≤ i := hhead hle
        have hcov' : ∀ pm ∈ scanAux fuel rest (pos + m0.length),
            ¬(pm.1 ≤ i ∧ i < pm.1 + pm.2.length) := by
          intro pm hpm
          exact hcov pm (by rw [scanAux, hm]; exact List.mem_cons_of_mem _ hpm)
        have hrl : rest.length ≤ fuel := by
          simp only [List.length_cons] at hlen hf
          omega
        have hrest := ih rest (pos + m0.length) i hrl hge hcov'
        have hdr : (c :: cs).drop (i - pos) = rest.drop (i - (pos + m0.length)) := by
          rw [hs]
          rw [show i - pos = m0.length + (i - (pos + m0.length)) by omega]
          rw [← List.drop_drop, List.drop_left]
        rw [hdr]
        exact hrest
      | none =>
        rcases Nat.eq_or_lt_of_le hle with hpi | hpi
        · subst hpi
          rw [Nat.sub_self, List.drop_zero]
          exact hm
        · have hcov' : ∀ pm ∈ scanAux fuel cs (pos + 1),
              ¬(pm.1 ≤ i ∧ i < pm.1 + pm.2.length) := by
            intro pm hpm
            exact hcov pm (by rw [scanAux, hm]; exact hpm)
          have hrest := ih cs (pos + 1) i (by simp at hf; omega) (by omega) hcov'
          have hsplit : i - pos = (i - (pos + 1)) + 1 := by omega
          rw [hsplit, List.drop_succ_cons]
          exact hrest

/-- In a list made of a brace-free prefix followed by two right braces, the
first double right brace starts exactly after that prefix. -/
lemma firstDoubleBrace_append (body r : List Char) (hb : ∀ c ∈ body, c ≠ rb) :
    firstDoubleBrace (body ++ rb :: rb :: r) = some body.length := by
  induction body with
  | nil => simp [firstDoubleBrace]
  | cons a bs ih =>
    have ha : a ≠ rb := hb a (List.mem_cons_self a bs)
    have ih' := ih (fun c hc => hb c (List.mem_cons_of_mem a hc))
    cases bs with
    | nil =>
      show firstDoubleBrace (a :: rb :: rb :: r) = some 1
      rw [firstDoubleBrace, if_neg (by simp [ha])]
      simp [firstDoubleBrace]
    | cons b bs' =>
      show firstDoubleBrace (a :: b :: (bs' ++ rb :: rb :: r)) =
        some ((a :: b :: bs').length)
      rw [firstDoubleBrace, if_neg (by simp [ha])]
      rw [List.cons_append] at ih'
      rw [ih']
      simp

/-- A text beginning with the opener, a brace-free body and two right braces
is, per the specification's words, a shortest-span occurrence ending at the
nearest following pair of right braces. -/
lemma specMatchAt_of_shape (body r : List Char) (hbc : ∀ c ∈ body, c ≠ rb) :
    specMatchAt (patOpen ++ body ++ [rb, rb] ++ r) =
      some (patOpen ++ body ++ [rb, rb]) := by
  have h1 : patOpen ++ body ++ [rb, rb] ++ r = patOpen ++ (body ++ rb :: rb :: r) := by
    simp
  rw [h1]
  unfold specMatchAt
  rw [List.take_left' patOpen_length, if_pos rfl, List.drop_left' patOpen_length,
    firstDoubleBrace_append body r hbc]
  show some (patOpen ++ (body ++ rb :: rb :: r).take body.length ++ [rb, rb]) =
    some (patOpen ++ body ++ [rb, rb])
  rw [List.take_left' rfl]

/-- C1 (amended): every reported match is the specification's shortest span at
its start offset, from the opener initial= with two left braces to the nearest
following pair of right braces, and its body is nonempty and contains no right
brace at all; conversely no position left uncovered by the reported matches
starts a regex match, so the scanner reports exactly the non-overlapping
occurrences whose body is free of right braces (an occurrence whose span holds
a stray right brace inside the body is not reported). -/
theorem finditer_shortest_span (s : List Char) (p : Nat) (m : List Char)
    (h : (p, m) ∈ finditer s 0) :
    specMatchAt (s.drop p) = some m ∧
    (∃ body, m = patOpen ++ body ++ [rb, rb] ∧ body ≠ [] ∧ ∀ c ∈ body, c ≠ rb) ∧
    (∀ i, (∀ pm ∈ finditer s 0, ¬(pm.1 ≤ i ∧ i < pm.1 + pm.2.length)) →
      matchAt (s.drop i) = none) := by
  have h' : (p, m) ∈ scanAux s.length s 0 := h
  obtain ⟨-, htake, body, hm, hbne, hbc⟩ := scanAux_mem h'
  rw [Nat.sub_zero] at htake
  have hsplit : s.drop p = m ++ (s.drop p).drop m.length := by
    conv_lhs => rw [← List.take_append_drop m.length (s.drop p), htake]
  refine ⟨?_, ⟨body, hm, hbne, hbc⟩, ?_⟩
  · rw [hsplit, hm]
    exact specMatchAt_of_shape body _ hbc
  · intro i hcov
    have hres := scanAux_none s.length s 0 i (le_refl _) (Nat.zero_le _) hcov
    rw [Nat.sub_zero] at hres
    exact hres

/-- Example text for the C1 counterexample: the literal initial= with two left
braces, the body a, a single right brace, the letter b, and two right
braces. -/
def straySpan : List Char := ("initial=\x7b\x7ba\x7db\x7d\x7d").data

/-- C1 counterexample: on the text initial= {{ a } b }} (written without the
spaces), the specification's pattern has a shortest-span occurrence at offset
0 (any characters up to the first pair of right braces), yet the scanner
reports no match at all, because the regex body class excludes every right
brace, not just the closing pair. -/
theorem spec_span_missed :
    specMatchAt straySpan = some straySpan ∧ finditer straySpan 0 = [] := by
  decide

/-- Example text for the C1 witness: a two-character prelude, then a full
occurrence with body ok, then a trailing blank and letter. -/
def spanText : List Char := ("x initial=\x7b\x7bok\x7d\x7d y").data

/-- The matched text inside spanText. -/
def spanMatch : List Char := ("initial=\x7b\x7bok\x7d\x7d").data

theorem finditer_shortest_span_witness :
    (2, spanMatch) ∈ finditer spanText 0 ∧
    (specMatchAt (spanText.drop 2) = some spanMatch ∧
      (∃ body, spanMatch = patOpen ++ body ++ [rb, rb] ∧ body ≠ [] ∧
        ∀ c ∈ body, c ≠ rb) ∧
      (∀ i, (∀ pm ∈ finditer spanText 0, ¬(pm.1 ≤ i ∧ i < pm.1 + pm.2.length)) →
        matchAt (spanText.drop i) = none)) :=
  ⟨by decide, finditer_shortest_span spanText 2 spanMatch (by decide)⟩

/-- C2: at a directory holding one file A.tsx with one occurrence, the code
prints the header with a single brace pair, reading initial= then one left and
one right brace, because the f-string of line 20 renders each doubled brace as
a single one; the claim's doubled-brace header text differs from it.  The
blank line and the one formatted line per record are as claimed. -/
theorem report_header_divergence :
    report [("A.tsx", "initial=\x7b\x7ba\x7d\x7d")] =
      ["Found 1 remaining initial=\x7b\x7d patterns:", "",
        "A.tsx:1: initial=\x7b\x7ba\x7d\x7d"] ∧
    "Found 1 remaining initial=\x7b\x7d patterns:" ≠
      "Found 1 remaining initial=\x7b\x7b\x7d\x7d patterns:" := by
  constructor
  · decide
  · decide

/-- C3: every reported record carries a line number that is at least 1 and
equals the count of newline characters strictly before the match's start
offset plus one, and the text at that start offset begins with the opener
initial= and two left braces, so a multi-line match is reported at the line of
its opener. -/
theorem lineNum_records (name : String) (content : List Char) (r : String)
    (h : r ∈ fileResults name content) :
    ∃ p m, (p, m) ∈ finditer content 0 ∧
      1 ≤ lineNum content p ∧
      lineNum content p = ((content.take p).count '\n') + 1 ∧
      (content.drop p).take 10 = patOpen ∧
      r = name ++ ":" ++ toString (lineNum content p) ++ ": " ++ String.mk (snippet m) := by
  obtain ⟨⟨p, m⟩, hpm, hr⟩ := List.mem_map.mp h
  refine ⟨p, m, hpm, Nat.le_add_left 1 _, rfl, ?_, hr.symm⟩
  have hpm' : (p, m) ∈ scanAux content.length content 0 := hpm
  obtain ⟨-, htake, body, hm, -, -⟩ := scanAux_mem hpm'
  rw [Nat.sub_zero] at htake
  have h10 : 10 ≤ m.length := by
    rw [hm]
    simp [patOpen_length]
  have hmin : ((content.drop p).take m.length).take 10 = (content.drop p).take 10 := by
    rw [List.take_take, Nat.min_eq_left h10]
  rw [← hmin, htake, hm, List.append_assoc, List.take_left' patOpen_length]

/-- Example text for the C3 witness: a one-character first line, then an
occurrence whose body spans two newlines, so the match covers lines 2 to 4 and
is reported at line 2, the line of its opener. -/
def multiLineText : List Char := ("x\ninitial=\x7b\x7b\na: 1\n\x7d\x7d").data

theorem lineNum_records_witness :
    ("A.tsx:2: initial=\x7b\x7b\na: 1\n\x7d\x7d") ∈ fileResults "A.tsx" multiLineText ∧
    (∃ p m, (p, m) ∈ finditer multiLineText 0 ∧
      1 ≤ lineNum multiLineText p ∧
      lineNum multiLineText p = ((multiLineText.take p).count '\n') + 1 ∧
      (multiLineText.drop p).take 10 = patOpen ∧
      ("A.tsx:2: initial=\x7b\x7b\na: 1\n\x7d\x7d" : String) =
        "A.tsx" ++ ":" ++ toString (lineNum multiLineText p) ++ ": " ++
          String.mk (snippet m)) :=
  ⟨by decide, lineNum_records "A.tsx" multiLineText _ (by decide)⟩

/-- C4: whenever the scan over the directory produces no match record (no
matching file, or no occurrence in any file), the whole output is the single
line saying no remaining patterns were found, with its doubled braces printed
literally (line 24 is a plain string, not an f-string). -/
theorem report_no_matches (files : List (String × String))
    (h : scanResults files = []) :
    report files = ["No remaining initial=\x7b\x7b\x7d\x7d patterns found!"] := by
  simp [report, h, emptyMsg]

theorem report_no_matches_witness :
    scanResults [("A.tsx", "const x = 1")] = [] ∧
    report [("A.tsx", "const x = 1")] =
      ["No remaining initial=\x7b\x7b\x7d\x7d patterns found!"] :=
  ⟨by decide, report_no_matches [("A.tsx", "const x = 1")] (by decide)⟩

/-- C5: the snippet of every reported match is the first 80 characters of its
matched text: if the match is longer than 80 characters the snippet has
exactly 80 characters and is a prefix of the match (no marker is appended),
and a match of at most 80 characters is kept whole. -/
theorem snippet_truncation (s : List Char) (p : Nat) (m : List Char)
    (h : (p, m) ∈ finditer s 0) :
    snippet m = m.take 80 ∧
    (80 < m.length → (snippet m).length = 80 ∧ snippet m <+: m) ∧
    (m.length ≤ 80 → snippet m = m) := by
  refine ⟨rfl, fun hgt => ⟨?_, ⟨m.drop 80, List.take_append_drop 80 m⟩⟩,
    fun hle => List.take_of_length_le hle⟩
  rw [snippet, List.length_take]
  omega

/-- Example text for the C5 witness: an 87-character match (opener, 75 body
characters, two closing braces), longer than the 80-character snippet. -/
def longMatch : List Char := patOpen ++ List.replicate 75 'a' ++ [rb, rb]

theorem snippet_truncation_witness :
    (0, longMatch) ∈ finditer longMatch 0 ∧
    (snippet longMatch = longMatch.take 80 ∧
      (80 < longMatch.length →
        (snippet longMatch).length = 80 ∧ snippet longMatch <+: longMatch) ∧
      (longMatch.length ≤ 80 → snippet longMatch = longMatch)) :=
  ⟨by decide, snippet_truncation longMatch 0 longMatch (by decide)⟩

/-- C6: the records of an earlier segment of the directory listing precede the
records of a later segment (enumeration order is preserved in the report), and
within one file's scan the start offsets of the recorded matches are strictly
increasing (order of appearance). -/
theorem results_ordered (fs gs : List (String × String)) (content : List Char)
    (pos : Nat) :
    scanResults (fs ++ gs) = scanResults fs ++ scanResults gs ∧
    ((finditer content pos).map Prod.fst).Pairwise (· < ·) := by
  constructor
  · unfold scanResults
    rw [List.map_append, List.flatten_append]
  · exact scanAux_pairwise content.length content pos

/-- C7: if any matched file cannot be read, the run fails outright: the first
error propagates uncaught (Except.error models Python's unhandled-exception
abnormal termination with a non-zero exit status), and no report is
produced. -/
theorem read_error_propagates (files : List (String × Except String String))
    (h : ∃ nf ∈ files, ∃ e, nf.2 = Except.error e) :
    (∃ e, runProgram files = Except.error e) ∧
    ∀ out, runProgram files ≠ Except.ok out := by
  have herr : ∃ e, readFiles files = Except.error e := by
    induction files with
    | nil => simp at h
    | cons nf rest ih =>
      obtain ⟨n, v⟩ := nf
      cases v with
      | error e => exact ⟨e, rfl⟩
      | ok c =>
        obtain ⟨x, hx, e, he⟩ := h
        rcases List.mem_cons.mp hx with hx | hx
        · subst hx
          simp at he
        · obtain ⟨e', he'⟩ := ih ⟨x, hx, e, he⟩
          refine ⟨e', ?_⟩
          rw [readFiles, he']
  obtain ⟨e, he⟩ := herr
  refine ⟨⟨e, by rw [runProgram, he]⟩, ?_⟩
  intro out hout
  rw [runProgram, he] at hout
  exact Except.noConfusion hout

theorem read_error_propagates_witness :
    (∃ nf ∈ [("A.tsx", (Except.error "read failed" : Except String String))],
      ∃ e, nf.2 = Except.error e) ∧
    ((∃ e, runProgram [("A.tsx", (Except.error "read failed" : Except String String))] =
        Except.error e) ∧
      ∀ out, runProgram [("A.tsx", (Except.error "read failed" : Except String String))] ≠
        Except.ok out) :=
  ⟨⟨_, List.mem_cons_self _ _, "read failed", rfl⟩,
    read_error_propagates _ ⟨_, List.mem_cons_self _ _, "read failed", rfl⟩⟩

/-- C8: the scan and report are a pure function of the enumerated directory
contents, so two runs over the same files with the same texts in the same
enumeration order print the same output. -/
theorem scan_deterministic (d1 d2 : List (String × String)) (h : d1 = d2) :
    report d1 = report d2 ∧ scanResults d1 = scanResults d2 := by
  subst h
  exact ⟨rfl, rfl⟩

theorem scan_deterministic_witness :
    [("A.tsx", "initial=\x7b\x7bz\x7d\x7d")] = [("A.tsx", "initial=\x7b\x7bz\x7d\x7d")] ∧
    (report [("A.tsx", "initial=\x7b\x7bz\x7d\x7d")] =
        report [("A.tsx", "initial=\x7b\x7bz\x7d\x7d")] ∧
      scanResults [("A.tsx", "initial=\x7b\x7bz\x7d\x7d")] =
        scanResults [("A.tsx", "initial=\x7b\x7bz\x7d\x7d")]) :=
  ⟨rfl, scan_deterministic _ _ rfl⟩

/-- C9: a reported match is never the empty-body literal (opener immediately
followed by the two closing braces): its body holds at least one character
that is not a right brace; and the empty-body literal text itself yields no
match at all. -/
theorem empty_body_never_reported (s : List Char) (p : Nat) (m : List Char)
    (h : (p, m) ∈ finditer s 0) :
    m ≠ patOpen ++ [rb, rb] ∧ (∃ c ∈ m.drop 10, c ≠ rb) ∧
    finditer (patOpen ++ [rb, rb]) 0 = [] := by
  have h' : (p, m) ∈ scanAux s.length s 0 := h
  obtain ⟨-, -, body, hm, hbne, hbc⟩ := scanAux_mem h'
  have hb1 : 1 ≤ body.length := List.length_pos.mpr hbne
  refine ⟨?_, ?_, by decide⟩
  · intro heq
    have h1 := congrArg List.length (heq ▸ hm : patOpen ++ [rb, rb] = patOpen ++ body ++ [rb, rb])
    simp [patOpen_length] at h1
    omega
  · cases body with
    | nil => exact absurd rfl hbne
    | cons a bs =>
      refine ⟨a, ?_, hbc a (List.mem_cons_self a bs)⟩
      rw [hm, List.append_assoc, List.drop_left' patOpen_length]
      exact List.mem_append_left _ (List.mem_cons_self a bs)

/-- Example text for the C9 witness: an occurrence with the one-character
body z. -/
def tinyMatch : List Char := ("initial=\x7b\x7bz\x7d\x7d").data

theorem empty_body_never_reported_witness :
    (0, tinyMatch) ∈ finditer tinyMatch 0 ∧
    (tinyMatch ≠ patOpen ++ [rb, rb] ∧ (∃ c ∈ tinyMatch.drop 10, c ≠ rb) ∧
      finditer (patOpen ++ [rb, rb]) 0 = []) :=
  ⟨by decide, empty_body_never_reported tinyMatch 0 tinyMatch (by decide)⟩

/-- C10: every reported snippet begins with the 10-character opener initial=
and two left braces, and since the matched text is always at least 13
characters long, the snippet's length lies between 13 and 80 inclusive. -/
theorem snippet_shape (s : List Char) (p : Nat) (m : List Char)
    (h : (p, m) ∈ finditer s 0) :
    (snippet m).take 10 = patOpen ∧ 13 ≤ m.length ∧
    13 ≤ (snippet m).length ∧ (snippet m).length ≤ 80 := by
  have h' : (p, m) ∈ scanAux s.length s 0 := h
  obtain ⟨-, -, body, hm, hbne, -⟩ := scanAux_mem h'
  have hb1 : 1 ≤ body.length := List.length_pos.mpr hbne
  have hlen : m.length = 12 + body.length := by
    rw [hm]
    simp [patOpen_length]
    omega
  refine ⟨?_, by omega, ?_, ?_⟩
  · rw [snippet, List.take_take]
    rw [show min 10 80 = 10 from rfl]
    rw [hm, List.append_assoc, List.take_left' patOpen_length]
  · rw [snippet, List.length_take]
    omega
  · rw [snippet, List.length_take]
    omega

/-- Example text for the C10 witness: an occurrence with the two-character
body qq, 14 characters in all. -/
def shortMatch : List Char := ("initial=\x7b\x7bqq\x7d\x7d").data

theorem snippet_shape_witness :
    (0, shortMatch) ∈ finditer shortMatch 0 ∧
    ((snippet shortMatch).take 10 = patOpen ∧ 13 ≤ shortMatch.length ∧
      13 ≤ (snippet shortMatch).length ∧ (snippet shortMatch).length ≤ 80) :=
  ⟨by decide, snippet_shape shortMatch 0 shortMatch (by decide)⟩

end FindInitials
